import Mathlib

/-!
Verification of the action-item extraction core of the notes application
(`week2/app/services/extract.py`, `week2/app/db.py`,
`week2/app/routers/action_items.py`).

Text is modelled as `List Char`.  Python string primitives (`str.strip`,
`str.lower`, `str.splitlines`, `str.startswith`, `str.removeprefix`,
substring membership) and the two regular expressions used by the code
(`^\s*([-*•]|\d+\.)\s+` and the sentence splitter) are given explicit
executable definitions, and the extraction pipeline is translated
line-for-line from the source.
-/

/-- Characters treated as whitespace by Python's `str.strip` / `\s`
(ASCII fragment, which covers every input exercised here). -/
def isPySpace (c : Char) : Bool :=
  c = ' ' || c = '\t' || c = '\n' || c = '\r' || c = '\x0b' || c = '\x0c'

/-- Python `str.strip()`: drop leading and trailing whitespace. -/
def pyStrip (l : List Char) : List Char :=
  ((l.dropWhile isPySpace).reverse.dropWhile isPySpace).reverse

/-- Python `str.lower()` on one character (ASCII fragment). -/
def pyLower (c : Char) : Char :=
  if 'A' ≤ c && c ≤ 'Z' then Char.ofNat (c.toNat + 32) else c

/-- Lowercase a whole string. -/
def lowerL (l : List Char) : List Char := l.map pyLower

/-- Abbreviation: the character list of a string literal. -/
def cl (s : String) : List Char := s.data

/-- Helper for `splitlines`: `cur` is the current line accumulated in
reverse.  Recognizes `\n`, `\r\n`, `\r`, `\x0b` and `\x0c` as line
terminators (the ASCII fragment of Python's set); content
after the last terminator forms a final line only when non-empty, as in
Python `str.splitlines()`. -/
def splitlinesGo : List Char → List Char → List (List Char)
  | cur, [] => if cur = [] then [] else [cur.reverse]
  | cur, '\r' :: '\n' :: rest => cur.reverse :: splitlinesGo [] rest
  | cur, '\r' :: rest => cur.reverse :: splitlinesGo [] rest
  | cur, '\n' :: rest => cur.reverse :: splitlinesGo [] rest
  | cur, '\x0b' :: rest => cur.reverse :: splitlinesGo [] rest
  | cur, '\x0c' :: rest => cur.reverse :: splitlinesGo [] rest
  | cur, c :: rest => splitlinesGo (c :: cur) rest

/-- Python `str.splitlines()`. -/
def splitlines (l : List Char) : List (List Char) := splitlinesGo [] l

/-- Python `needle in haystack` substring test. -/
def containsSub (needle : List Char) : List Char → Bool
  | [] => needle.isEmpty
  | h :: t => needle.isPrefixOf (h :: t) || containsSub needle t

/-- Python `str.removeprefix(p)`. -/
def removePrefixTok (p l : List Char) : List Char :=
  if p.isPrefixOf l then l.drop p.length else l

/-- Length of the match of `BULLET_PREFIX_PATTERN = ^\s*([-*•]|\d+\.)\s+`
at the start of `l`, or `none` when the pattern does not match.
`\s*` and `\s+` are greedy; the alternation tries a single bullet
character first, then a digit run followed by a period. -/
def bulletMatchLen (l : List Char) : Option Nat :=
  let ws1 := l.takeWhile isPySpace
  let r1 := l.drop ws1.length
  match r1 with
  | [] => none
  | c :: rest =>
    if c = '-' || c = '*' || c = '•' then
      let ws2 := rest.takeWhile isPySpace
      if ws2 = [] then none else some (ws1.length + 1 + ws2.length)
    else
      let digits := r1.takeWhile Char.isDigit
      if digits = [] then none
      else
        match r1.drop digits.length with
        | '.' :: rest2 =>
          let ws2 := rest2.takeWhile isPySpace
          if ws2 = [] then none
          else some (ws1.length + digits.length + 1 + ws2.length)
        | _ => none

/-- `BULLET_PREFIX_PATTERN.sub("", l)`: the pattern is anchored at the
start, so at most one match is removed. -/
def bulletSub (l : List Char) : List Char :=
  match bulletMatchLen l with
  | some n => l.drop n
  | none => l

/-- `KEYWORD_PREFIXES = ("todo:", "action:", "next:")`. -/
def KEYWORD_PREFIXES : List (List Char) :=
  [cl "todo:", cl "action:", cl "next:"]

/-- `_is_action_line` from `extract.py`: classify a line (after trimming
and lowercasing) as an action line. -/
def isActionLine (line : List Char) : Bool :=
  let stripped := lowerL (pyStrip line)
  if stripped = [] then false
  else if (bulletMatchLen stripped).isSome then true
  else if KEYWORD_PREFIXES.any (fun p => p.isPrefixOf stripped) then true
  else if containsSub (cl "[ ]") stripped || containsSub (cl "[todo]") stripped then true
  else false

/-- The cleaning applied to a qualifying line in `extract_action_items`:
strip the bullet marker, trim, then remove a leading `"[ ]"` and a
leading `"[todo]"` (case-sensitively), trimming after each removal. -/
def cleanAction (line : List Char) : List Char :=
  let c1 := pyStrip (bulletSub line)
  let c2 := pyStrip (removePrefixTok (cl "[ ]") c1)
  pyStrip (removePrefixTok (cl "[todo]") c2)

/-- The line-classification pass of `extract_action_items`: every
non-blank line that `_is_action_line` accepts, cleaned. -/
def extractedLines (text : List Char) : List (List Char) :=
  (splitlines text).filterMap fun raw =>
    let line := pyStrip raw
    if line = [] then none
    else if isActionLine line then some (cleanAction line) else none

/-- Fuel-indexed worker for `re.split(r"(?<=[.!?])\s+", text)`:
`cur` is the current segment accumulated in reverse; when the previous
character is `.`, `!` or `?` and the next character is whitespace, the
maximal whitespace run is consumed as a separator.  The fuel is at
least the length of the remaining input, so it never runs out. -/
def sentSplitGo : Nat → List Char → List Char → List (List Char)
  | 0, cur, _ => [cur.reverse]
  | _ + 1, cur, [] => [cur.reverse]
  | fuel + 1, cur, c :: rest =>
    if (cur.head?.elim false fun p => p = '.' || p = '!' || p = '?') && isPySpace c then
      cur.reverse :: sentSplitGo fuel [] (rest.dropWhile isPySpace)
    else
      sentSplitGo fuel (c :: cur) rest

/-- `re.split(r"(?<=[.!?])\s+", l)`. -/
def sentSplit (l : List Char) : List (List Char) :=
  sentSplitGo (l.length + 1) [] l

/-- Word characters of the token scan `re.findall(r"[A-Za-z']+", s)`. -/
def isWordChar (c : Char) : Bool :=
  ('A' ≤ c && c ≤ 'Z') || ('a' ≤ c && c ≤ 'z') || c = '\''

/-- The first token of `re.findall(r"[A-Za-z']+", s)`, if any. -/
def firstWord (s : List Char) : Option (List Char) :=
  let t := (s.dropWhile fun c => !isWordChar c).takeWhile isWordChar
  if t = [] then none else some t

/-- The fixed imperative-starter set of `_looks_imperative`. -/
def IMPERATIVE_STARTERS : List (List Char) :=
  [cl "add", cl "create", cl "implement", cl "fix", cl "update", cl "write",
   cl "check", cl "verify", cl "refactor", cl "document", cl "design",
   cl "investigate"]

/-- `_looks_imperative` from `extract.py`. -/
def looksImperative (sentence : List Char) : Bool :=
  match firstWord sentence with
  | none => false
  | some w => IMPERATIVE_STARTERS.contains (lowerL w)

/-- The sentence-level fallback pass of `extract_action_items`. -/
def fallbackSentences (text : List Char) : List (List Char) :=
  (sentSplit (pyStrip text)).filterMap fun sentence =>
    let s := pyStrip sentence
    if s = [] then none
    else if looksImperative s then some s else none

/-- Order-preserving case-insensitive deduplication worker; `seen` is
the set of lowercased texts already emitted. -/
def dedupeGo (seen : List (List Char)) : List (List Char) → List (List Char)
  | [] => []
  | x :: xs =>
    let lowered := lowerL x
    if lowered ∈ seen then dedupeGo seen xs
    else x :: dedupeGo (lowered :: seen) xs

/-- The deduplication pass of `extract_action_items`: drop items whose
lowercased text was already seen, keeping first occurrences in order. -/
def dedupeCI (l : List (List Char)) : List (List Char) := dedupeGo [] l

/-- The items collected before deduplication: the line pass, or the
sentence fallback when the line pass produced nothing. -/
def collectedItems (text : List Char) : List (List Char) :=
  let extracted := extractedLines text
  if extracted = [] then fallbackSentences text else extracted

/-- `extract_action_items` from `extract.py`. -/
def extract_action_items (text : List Char) : List (List Char) :=
  dedupeCI (collectedItems text)

/-- JSON values as produced by `json.loads`.  Numbers are modelled as
integers: no input exercised by this development carries fractional or
exponent parts. -/
inductive Json where
  | null : Json
  | bool : Bool → Json
  | num : Int → Json
  | str : List Char → Json
  | arr : List Json → Json
  | obj : List (List Char × Json) → Json

/-- JSON insignificant whitespace. -/
def isJsonWs (c : Char) : Bool :=
  c = ' ' || c = '\t' || c = '\n' || c = '\r'

/-- Simple JSON string escapes (`\uXXXX` is outside the modelled
fragment and makes the parse fail). -/
def escChar (e : Char) : Option Char :=
  if e = '"' then some '"'
  else if e = '\\' then some '\\'
  else if e = '/' then some '/'
  else if e = 'n' then some '\n'
  else if e = 't' then some '\t'
  else if e = 'r' then some '\r'
  else if e = 'b' then some '\x08'
  else if e = 'f' then some '\x0c'
  else none

/-- Parse the body of a JSON string after the opening quote, returning
the decoded characters and the remaining input. -/
def jsonString : List Char → Option (List Char × List Char)
  | [] => none
  | '"' :: rest => some ([], rest)
  | '\\' :: e :: rest => do
    let c ← escChar e
    let (s, r) ← jsonString rest
    some (c :: s, r)
  | c :: rest => do
    let (s, r) ← jsonString rest
    some (c :: s, r)

/-- Fold one decimal digit character onto an accumulated value. -/
def digitAccum (acc : Nat) (c : Char) : Nat := 10 * acc + (c.toNat - 48)

/-- Parse an unsigned JSON integer: a digit run not followed by a
fraction or exponent part (which are outside the modelled fragment). -/
def jsonNatPart (cs : List Char) : Option (Nat × List Char) :=
  let digits := cs.takeWhile Char.isDigit
  if digits = [] then none
  else
    match cs.drop digits.length with
    | '.' :: _ => none
    | 'e' :: _ => none
    | 'E' :: _ => none
    | rest => some (digits.foldl digitAccum 0, rest)

/-- Parse a JSON integer: `jsonNatPart` behind an optional minus sign. -/
def jsonNumber (cs : List Char) : Option (Int × List Char) :=
  match cs with
  | '-' :: r => (jsonNatPart r).map fun q => (-(q.1 : Int), q.2)
  | _ => (jsonNatPart cs).map fun q => ((q.1 : Int), q.2)

/-- Consume an expected literal token. -/
def expectLit (lit cs : List Char) : Option (List Char) :=
  if lit.isPrefixOf cs then some (cs.drop lit.length) else none

/-- What the recursive-descent JSON parser is currently parsing: one
value, the element list of a non-empty array, or the member list of a
non-empty object. -/
inductive PMode where
  | val : PMode
  | arrItems : PMode
  | objItems : PMode

/-- Fuel-indexed recursive-descent parser modelling `json.loads`.
In `arrItems` mode it returns the remaining elements wrapped in
`Json.arr` (closing bracket consumed); in `objItems` mode the
remaining members wrapped in `Json.obj` (closing brace consumed). -/
def jsonP : Nat → PMode → List Char → Option (Json × List Char)
  | 0, _, _ => none
  | fuel + 1, .val, cs =>
    match cs.dropWhile isJsonWs with
    | [] => none
    | '"' :: rest => do
      let (s, r) ← jsonString rest
      some (Json.str s, r)
    | '[' :: rest =>
      (match rest.dropWhile isJsonWs with
       | ']' :: r => some (Json.arr [], r)
       | _ => jsonP fuel .arrItems rest)
    | '\x7b' :: rest =>
      (match rest.dropWhile isJsonWs with
       | '\x7d' :: r => some (Json.obj [], r)
       | _ => jsonP fuel .objItems rest)
    | rest =>
      match expectLit (cl "null") rest with
      | some r => some (Json.null, r)
      | none =>
        match expectLit (cl "true") rest with
        | some r => some (Json.bool true, r)
        | none =>
          match expectLit (cl "false") rest with
          | some r => some (Json.bool false, r)
          | none => do
            let (n, r) ← jsonNumber rest
            some (Json.num n, r)
  | fuel + 1, .arrItems, cs => do
    let (v, r) ← jsonP fuel .val cs
    match r.dropWhile isJsonWs with
    | ',' :: r2 => do
      let (vs, r3) ← jsonP fuel .arrItems r2
      match vs with
      | Json.arr tail => some (Json.arr (v :: tail), r3)
      | _ => none
    | ']' :: r2 => some (Json.arr [v], r2)
    | _ => none
  | fuel + 1, .objItems, cs =>
    match cs.dropWhile isJsonWs with
    | '"' :: rest => do
      let (k, r) ← jsonString rest
      match r.dropWhile isJsonWs with
      | ':' :: r2 => do
        let (v, r3) ← jsonP fuel .val r2
        match r3.dropWhile isJsonWs with
        | ',' :: r4 => do
          let (kvs, r5) ← jsonP fuel .objItems r4
          match kvs with
          | Json.obj tail => some (Json.obj ((k, v) :: tail), r5)
          | _ => none
        | '\x7d' :: r4 => some (Json.obj [(k, v)], r4)
        | _ => none
      | _ => none
    | _ => none

/-- `json.loads`: parse a complete JSON document (trailing whitespace
allowed, trailing garbage rejected). -/
def jsonLoads (cs : List Char) : Option Json :=
  match jsonP (2 * cs.length + 2) .val cs with
  | some (v, rest) => if rest.dropWhile isJsonWs = [] then some v else none
  | none => none

/-- Python truthiness of a parsed-JSON value (`if item`). -/
def pyTruthy : Json → Bool
  | .null => false
  | .bool b => b
  | .num n => n ≠ 0
  | .str s => !s.isEmpty
  | .arr xs => !xs.isEmpty
  | .obj kvs => !kvs.isEmpty

/-- Decimal digits of a natural number, most significant first. -/
def natRepr (n : Nat) : List Char :=
  if n = 0 then ['0']
  else (Nat.digits 10 n).reverse.map fun d => Char.ofNat (48 + d)

/-- Python `str` of an `int`. -/
def intRepr (n : Int) : List Char :=
  if n < 0 then '-' :: natRepr (-n).toNat else natRepr n.toNat

/-- Join rendered elements with `", "` as Python `repr` does. -/
def commaJoin : List (List Char) → List Char
  | [] => []
  | [x] => x
  | x :: y :: rest => x ++ ',' :: ' ' :: commaJoin (y :: rest)

mutual

/-- Python `repr` of a parsed-JSON value (strings are modelled without
escape-quoting, which is exact for the quote-free strings arising
here). -/
def pyRepr : Json → List Char
  | .null => cl "None"
  | .bool true => cl "True"
  | .bool false => cl "False"
  | .num n => intRepr n
  | .str s => '\'' :: (s ++ ['\''])
  | .arr xs => '[' :: (commaJoin (pyReprList xs) ++ [']'])
  | .obj kvs => '\x7b' :: (commaJoin (pyReprObj kvs) ++ ['\x7d'])

/-- `repr` of each element of a list. -/
def pyReprList : List Json → List (List Char)
  | [] => []
  | v :: vs => pyRepr v :: pyReprList vs

/-- `repr` of each `key: value` member of a dict. -/
def pyReprObj : List (List Char × Json) → List (List Char)
  | [] => []
  | kv :: kvs => ('\'' :: (kv.1 ++ '\'' :: ':' :: ' ' :: pyRepr kv.2)) :: pyReprObj kvs

end

/-- Python `str(item)` on a parsed-JSON value. -/
def pyStr : Json → List Char
  | .str s => s
  | v => pyRepr v

/-- Python iteration `for item in items` over a parsed-JSON value:
lists yield their elements, strings yield one-character strings, dicts
yield their keys; iterating any other value raises `TypeError`
(returned as `none`, to be caught by the surrounding handler). -/
def pyIterToList : Json → Option (List Json)
  | .arr xs => some xs
  | .str s => some (s.map fun c => Json.str [c])
  | .obj kvs => some (kvs.map fun kv => Json.str kv.1)
  | _ => none

/-- Python `dict.get`: the binding for `k`, later duplicate keys
winning as in a dict built by `json.loads`. -/
def dictGet (kvs : List (List Char × Json)) (k : List Char) : Option Json :=
  (kvs.reverse.find? fun kv => kv.1 == k).map fun kv => kv.2

/-- `dict.get` with Python's default of `None` for an absent key. -/
def dictGetOrNone (kvs : List (List Char × Json)) (k : List Char) : Json :=
  (dictGet kvs k).getD Json.null

/-- Python `a or b` on parsed-JSON values. -/
def pyOr (a b : Json) : Json := if pyTruthy a then a else b

/-- The `or`-chain over candidate keys in the dict branch of
`extract_action_items_llm`. -/
def llmDictItems (kvs : List (List Char × Json)) : Json :=
  pyOr (dictGetOrNone kvs (cl "action_items"))
    (pyOr (dictGetOrNone kvs (cl "actionItems"))
      (pyOr (dictGetOrNone kvs (cl "items"))
        (pyOr (dictGetOrNone kvs (cl "actions"))
          (pyOr (dictGetOrNone kvs (cl "tasks")) (Json.arr [])))))

/-- The comprehension `[str(item) for item in items if item]`;
iterating a non-iterable value raises `TypeError`, which the
surrounding `except Exception` handler turns into `[]`. -/
def coerceItems (items : Json) : List (List Char) :=
  match pyIterToList items with
  | some xs => (xs.filter pyTruthy).map pyStr
  | none => []

/-- One invocation of the `ollama.chat` collaborator, as observed by
`extract_action_items_llm`: either some raising behaviour (transport or
availability error, missing message content — anything the `except`
handlers catch), or a completion whose message content is `content`. -/
inductive ChatOutcome where
  | failure : ChatOutcome
  | reply : List Char → ChatOutcome

/-- `extract_action_items_llm` from `extract.py`, with the collaborator
response passed explicitly. -/
def extract_action_items_llm (text : List Char) (outcome : ChatOutcome) : List (List Char) :=
  if text.isEmpty || (pyStrip text).isEmpty then []
  else
    match outcome with
    | .failure => []
    | .reply content =>
      match jsonLoads (pyStrip content) with
      | none => []
      | some (Json.arr xs) => (xs.filter pyTruthy).map pyStr
      | some (Json.obj kvs) => coerceItems (llmDictItems kvs)
      | some _ => []

/-- A row of the `notes` table. -/
structure NoteRow where
  id : Nat
  content : List Char

/-- A row of the `action_items` table; `done` is the stored SQLite
integer (`0` or `1`). -/
structure ActionItemRow where
  id : Nat
  note_id : Option Nat
  text : List Char
  done : Nat

/-- The SQLite database: both tables together with their
`AUTOINCREMENT` counters (the next rowid each table will assign). -/
structure DBState where
  notes : List NoteRow
  nextNoteId : Nat
  actionItems : List ActionItemRow
  nextActionItemId : Nat

/-- `insert_note` from `db.py`: insert a row and return
`cursor.lastrowid`. -/
def insert_note (content : List Char) (db : DBState) : Nat × DBState :=
  (db.nextNoteId,
   { db with
     notes := db.notes ++ [⟨db.nextNoteId, content⟩]
     nextNoteId := db.nextNoteId + 1 })

/-- `insert_action_items` from `db.py`: insert each item in order,
collecting `cursor.lastrowid` after each insert. -/
def insert_action_items : List (List Char) → Option Nat → DBState → List Nat × DBState
  | [], _, db => ([], db)
  | item :: rest, note_id, db =>
    let newId := db.nextActionItemId
    let db1 : DBState :=
      { db with
        actionItems := db.actionItems ++ [⟨newId, note_id, item, 0⟩]
        nextActionItemId := newId + 1 }
    let r := insert_action_items rest note_id db1
    (newId :: r.1, r.2)

/-- `mark_action_item_done` from `db.py`: run the `UPDATE` and return
`cursor.rowcount > 0` (the number of rows whose `id` matched). -/
def mark_action_item_done (action_item_id : Nat) (done : Bool) (db : DBState) : Bool × DBState :=
  let rowcount := (db.actionItems.filter fun row => row.id == action_item_id).length
  let updated := db.actionItems.map fun row =>
    if row.id == action_item_id then
      { row with done := if done then 1 else 0 }
    else row
  (decide (rowcount > 0), { db with actionItems := updated })

/-- What the `POST /action-items/{action_item_id}/done` handler sends
back: a 404 `ActionItemNotFoundError`, or a `MarkDoneResponse`. -/
inductive MarkDoneResult where
  | notFound : Nat → MarkDoneResult
  | ok : Nat → Bool → MarkDoneResult

/-- `mark_done` from `routers/action_items.py`. -/
def mark_done (action_item_id : Nat) (payload_done : Bool) (db : DBState) :
    MarkDoneResult × DBState :=
  let r := mark_action_item_done action_item_id payload_done db
  if r.1 then (MarkDoneResult.ok action_item_id payload_done, r.2)
  else (MarkDoneResult.notFound action_item_id, r.2)

/-- The body of an `ExtractResponse`: the optional note id and the
`(id, text)` pairs built by `zip(ids, items)`. -/
structure ExtractResponseModel where
  note_id : Option Nat
  items : List (Nat × List Char)

/-- The `POST /action-items/extract` handler from
`routers/action_items.py`. -/
def extractEndpoint (payload_text : List Char) (save_note : Bool) (db : DBState) :
    ExtractResponseModel × DBState :=
  let text := pyStrip payload_text
  let st1 : Option Nat × DBState :=
    if save_note then
      let r := insert_note text db
      (some r.1, r.2)
    else (none, db)
  let items := extract_action_items text
  let r2 := insert_action_items items st1.1 st1.2
  ({ note_id := st1.1, items := r2.1.zip items }, r2.2)

/-! ### Properties of the deduplication pass -/

theorem dedupeGo_sublist (l : List (List Char)) :
    ∀ seen, (dedupeGo seen l).Sublist l := by
  induction l with
  | nil => intro seen; simp [dedupeGo]
  | cons x xs ih =>
    intro seen
    simp only [dedupeGo]
    split
    · exact (ih seen).trans (List.sublist_cons_self x xs)
    · exact (ih _).cons₂ x

theorem mem_dedupeGo_not_seen {y : List Char} :
    ∀ (seen : List (List Char)) (l : List (List Char)),
      y ∈ dedupeGo seen l → lowerL y ∉ seen := by
  intro seen l
  induction l generalizing seen with
  | nil => simp [dedupeGo]
  | cons x xs ih =>
    simp only [dedupeGo]
    split
    · exact ih _
    · rename_i hns
      intro hy
      rcases List.mem_cons.mp hy with rfl | hmem
      · exact hns
      · intro hc
        exact ih _ hmem (List.mem_cons_of_mem _ hc)

theorem dedupeGo_pairwise :
    ∀ (seen : List (List Char)) (l : List (List Char)),
      (dedupeGo seen l).Pairwise (fun a b => lowerL a ≠ lowerL b) := by
  intro seen l
  induction l generalizing seen with
  | nil => simp [dedupeGo]
  | cons x xs ih =>
    simp only [dedupeGo]
    split
    · exact ih _
    · refine List.pairwise_cons.mpr ⟨?_, ih _⟩
      intro y hy heq
      exact mem_dedupeGo_not_seen _ _ hy (heq ▸ List.mem_cons_self _ _)

theorem mem_dedupeGo_iff {y : List Char} :
    ∀ (seen : List (List Char)) (l : List (List Char)),
      y ∈ dedupeGo seen l ↔
        lowerL y ∉ seen ∧
          ∃ l1 l2, l = l1 ++ y :: l2 ∧ ∀ z ∈ l1, lowerL z ≠ lowerL y := by
  intro seen l
  induction l generalizing seen with
  | nil =>
    simp only [dedupeGo, List.not_mem_nil, false_iff, not_and]
    intro _
    rintro ⟨l1, l2, heq, -⟩
    exact List.noConfusion (List.append_eq_nil.mp heq.symm).2
  | cons x xs ih =>
    simp only [dedupeGo]
    split
    · rename_i hseen
      rw [ih]
      constructor
      · rintro ⟨hns, l1, l2, rfl, hall⟩
        refine ⟨hns, x :: l1, l2, rfl, ?_⟩
        intro z hz
        rcases List.mem_cons.mp hz with rfl | hz2
        · intro hc
          exact hns (hc ▸ hseen)
        · exact hall z hz2
      · rintro ⟨hns, l1, l2, heq, hall⟩
        cases l1 with
        | nil =>
          simp only [List.nil_append] at heq
          injection heq with h1 h2
          subst h1
          exact absurd hseen hns
        | cons a l1t =>
          simp only [List.cons_append] at heq
          injection heq with h1 h2
          subst h1
          exact ⟨hns, l1t, l2, h2, fun z hz => hall z (List.mem_cons_of_mem _ hz)⟩
    · rename_i hseen
      rw [List.mem_cons, ih]
      constructor
      · rintro (rfl | ⟨hns, l1, l2, rfl, hall⟩)
        · exact ⟨hseen, [], xs, rfl, by simp⟩
        · have hyx : lowerL y ≠ lowerL x := by
            intro hc
            exact hns (by rw [hc]; exact List.mem_cons_self _ _)
          refine ⟨fun hc => hns (List.mem_cons_of_mem _ hc), x :: l1, l2, rfl, ?_⟩
          intro z hz
          rcases List.mem_cons.mp hz with rfl | hz2
          · exact fun hc => hyx hc.symm
          · exact hall z hz2
      · rintro ⟨hns, l1, l2, heq, hall⟩
        cases l1 with
        | nil =>
          simp only [List.nil_append] at heq
          injection heq with h1 h2
          exact Or.inl h1.symm
        | cons a l1t =>
          simp only [List.cons_append] at heq
          injection heq with h1 h2
          subst h1
          refine Or.inr ⟨?_, l1t, l2, h2, fun z hz => hall z (List.mem_cons_of_mem _ hz)⟩
          intro hc
          rcases List.mem_cons.mp hc with hc1 | hc2
          · exact hall x (List.mem_cons_self _ _) hc1.symm
          · exact hns hc2

/-! ### Properties of `pyStrip` -/

theorem head?_dropWhile_false {p : Char → Bool} {l : List Char} {c : Char}
    (h : (l.dropWhile p).head? = some c) : p c = false := by
  have hm := List.head?_dropWhile_not p l
  rw [h] at hm
  exact hm

theorem pyStrip_pref (l : List Char) : pyStrip l <+: l.dropWhile isPySpace := by
  unfold pyStrip
  have h := List.reverse_prefix.mpr
    (List.dropWhile_suffix (l := (l.dropWhile isPySpace).reverse) isPySpace)
  rwa [List.reverse_reverse] at h

theorem pyStrip_dropWhile (l : List Char) :
    (pyStrip l).dropWhile isPySpace = pyStrip l := by
  obtain ⟨t, ht⟩ := pyStrip_pref l
  cases hs : pyStrip l with
  | nil => rfl
  | cons c cs =>
    have hc : isPySpace c = false := by
      apply head?_dropWhile_false (l := l)
      rw [← ht, hs]
      rfl
    rw [List.dropWhile_cons_of_neg]
    simp [hc]

theorem pyStrip_reverse_dropWhile (l : List Char) :
    (pyStrip l).reverse.dropWhile isPySpace = (pyStrip l).reverse := by
  unfold pyStrip
  rw [List.reverse_reverse]
  cases hs : (l.dropWhile isPySpace).reverse.dropWhile isPySpace with
  | nil => rfl
  | cons c cs =>
    have hc : isPySpace c = false := by
      apply head?_dropWhile_false (l := (l.dropWhile isPySpace).reverse)
      rw [hs]
      rfl
    rw [List.dropWhile_cons_of_neg]
    simp [hc]

theorem pyStrip_idem (l : List Char) : pyStrip (pyStrip l) = pyStrip l := by
  conv_lhs => rw [pyStrip]
  rw [pyStrip_dropWhile, pyStrip_reverse_dropWhile, List.reverse_reverse]

/-! ### Shape of the items each extraction pass produces -/

theorem cleanAction_eq (line : List Char) :
    cleanAction line
      = pyStrip (removePrefixTok (cl "[todo]")
          (pyStrip (removePrefixTok (cl "[ ]") (pyStrip (bulletSub line))))) := rfl

theorem mem_collected_strip {text item : List Char} (h : item ∈ collectedItems text) :
    pyStrip item = item := by
  unfold collectedItems at h
  dsimp only at h
  split at h
  · unfold fallbackSentences at h
    rw [List.mem_filterMap] at h
    obtain ⟨sentence, -, heq⟩ := h
    dsimp only at heq
    split at heq
    · exact Option.noConfusion heq
    · split at heq
      · rw [Option.some.injEq] at heq
        rw [← heq]
        exact pyStrip_idem _
      · exact Option.noConfusion heq
  · unfold extractedLines at h
    rw [List.mem_filterMap] at h
    obtain ⟨raw, -, heq⟩ := h
    dsimp only at heq
    split at heq
    · exact Option.noConfusion heq
    · split at heq
      · rw [Option.some.injEq] at heq
        rw [← heq, cleanAction_eq]
        exact pyStrip_idem _
      · exact Option.noConfusion heq

theorem mem_extract_strip {text item : List Char}
    (h : item ∈ extract_action_items text) : pyStrip item = item :=
  mem_collected_strip ((dedupeGo_sublist _ []).mem h)

/-! ### Non-emptiness of coerced model-path items -/

theorem natRepr_ne_nil (n : Nat) : natRepr n ≠ [] := by
  unfold natRepr
  split
  · simp
  · rename_i h0
    simp only [ne_eq, List.map_eq_nil_iff, List.reverse_eq_nil_iff]
    exact Nat.digits_ne_nil_iff_ne_zero.mpr h0

theorem intRepr_ne_nil (n : Int) : intRepr n ≠ [] := by
  unfold intRepr
  split
  · simp
  · exact natRepr_ne_nil _

theorem pyRepr_ne_nil (v : Json) : pyRepr v ≠ [] := by
  cases v with
  | null => simp [pyRepr, cl]
  | bool b => cases b <;> simp [pyRepr, cl]
  | num n => rw [pyRepr]; exact intRepr_ne_nil n
  | str s => simp [pyRepr]
  | arr xs => simp [pyRepr]
  | obj kvs => simp [pyRepr]

theorem pyStr_ne_nil {v : Json} (h : pyTruthy v = true) : pyStr v ≠ [] := by
  cases v with
  | str s =>
    have hs : s ≠ [] := by
      simpa [pyTruthy, List.isEmpty_iff] using h
    simpa [pyStr] using hs
  | null => simp [pyTruthy] at h
  | bool b => exact pyRepr_ne_nil _
  | num n => exact pyRepr_ne_nil _
  | arr xs => exact pyRepr_ne_nil _
  | obj kvs => exact pyRepr_ne_nil _

theorem mem_coerce_ne_nil {j : Json} {item : List Char}
    (h : item ∈ coerceItems j) : item ≠ [] := by
  unfold coerceItems at h
  split at h
  · rw [List.mem_map] at h
    obtain ⟨v, hv, rfl⟩ := h
    exact pyStr_ne_nil (List.mem_filter.mp hv).2
  · exact absurd h (List.not_mem_nil _)

theorem mem_llm_ne_nil {text : List Char} {outcome : ChatOutcome} {item : List Char}
    (h : item ∈ extract_action_items_llm text outcome) : item ≠ [] := by
  unfold extract_action_items_llm at h
  split at h
  · exact absurd h (List.not_mem_nil _)
  · cases outcome with
    | failure => exact absurd h (List.not_mem_nil _)
    | reply content =>
      dsimp only at h
      split at h
      · exact absurd h (List.not_mem_nil _)
      · rename_i xs _
        exact mem_coerce_ne_nil (j := Json.arr xs) h
      · exact mem_coerce_ne_nil h
      · exact absurd h (List.not_mem_nil _)

/-! ### Claim theorems -/

/-- C1, counterexample: the claim "every returned item is non-empty
after trimming" fails on the code.  The single line `"[ ]"` qualifies
via the checkbox rule and cleans to the empty string, so the heuristic
extractor returns `[""]`; and on a completion result `[" "]` the model
path returns the whitespace-only item `" "`. -/
theorem c1_counterexample :
    extract_action_items (cl "[ ]") = [[]]
    ∧ extract_action_items_llm (cl "notes") (ChatOutcome.reply (cl "[\" \"]")) = [cl " "]
    ∧ pyStrip (cl " ") = [] := by
  refine ⟨by decide, by decide, by decide⟩

/-- C1, amended: every item returned by `extract_action_items` is
already trimmed (it equals its own strip), and every item returned by
`extract_action_items_llm` is a non-empty string — but items may be
empty (heuristic path, marker-only lines) or whitespace-only (model
path) after trimming. -/
theorem c1_amended_trimmed_items :
    (∀ text item, item ∈ extract_action_items text → pyStrip item = item)
    ∧ (∀ text outcome item, item ∈ extract_action_items_llm text outcome → item ≠ []) :=
  ⟨fun _ _ h => mem_extract_strip h, fun _ _ _ h => mem_llm_ne_nil h⟩

theorem c1_amended_witness :
    pyStrip (cl "Set up database") = cl "Set up database"
    ∧ cl "a" ≠ ([] : List Char) :=
  ⟨c1_amended_trimmed_items.1 (cl "- [ ] Set up database") (cl "Set up database") (by decide),
   c1_amended_trimmed_items.2 (cl "x") (ChatOutcome.reply (cl "[\"a\"]")) (cl "a") (by decide)⟩

/-- C2: `extract_action_items_llm` never raises: when the collaborator
call fails (any raising behaviour), or its output does not parse as
JSON — in particular the literal text `"not json"` — the function
returns the empty sequence. -/
theorem c2_llm_never_raises :
    (∀ text, extract_action_items_llm text ChatOutcome.failure = [])
    ∧ (∀ text content, jsonLoads (pyStrip content) = none →
        extract_action_items_llm text (ChatOutcome.reply content) = [])
    ∧ extract_action_items_llm (cl "meeting notes") (ChatOutcome.reply (cl "not json")) = [] := by
  refine ⟨?_, ?_, by decide⟩
  · intro text
    unfold extract_action_items_llm
    split <;> rfl
  · intro text content h
    unfold extract_action_items_llm
    split
    · rfl
    · simp only [h]

theorem c2_witness :
    extract_action_items_llm (cl "x") (ChatOutcome.reply (cl "oops")) = [] :=
  c2_llm_never_raises.2.1 (cl "x") (cl "oops") rfl

/-- C3: the extractor's output never contains two items equal after
lowercasing; it is a subsequence of the pre-dedup item sequence (order
preserved), and an item appears in the output exactly when it occurs
in the pre-dedup sequence with no earlier occurrence of the same
lowercased text — first occurrences are kept. -/
theorem c3_dedup_case_insensitive (text : List Char) :
    (extract_action_items text).Pairwise (fun a b => lowerL a ≠ lowerL b)
    ∧ (extract_action_items text).Sublist (collectedItems text)
    ∧ (∀ y, y ∈ extract_action_items text ↔
        ∃ l1 l2, collectedItems text = l1 ++ y :: l2 ∧ ∀ z ∈ l1, lowerL z ≠ lowerL y) := by
  refine ⟨dedupeGo_pairwise [] _, dedupeGo_sublist _ [], ?_⟩
  intro y
  rw [show extract_action_items text = dedupeGo [] (collectedItems text) from rfl,
    mem_dedupeGo_iff]
  simp only [List.not_mem_nil, not_false_eq_true, true_and]

/-- C4: on the four-line mixed input, the heuristic extractor returns
exactly the three cleaned action items in source order, excluding the
narrative line. -/
theorem c4_order_invariant :
    extract_action_items
      (cl "- [ ] Set up database\n* implement API extract endpoint\n1. Write tests\nSome narrative sentence.")
      = [cl "Set up database", cl "implement API extract endpoint", cl "Write tests"] := by
  decide

/-- C5: the sentence-level imperative fallback runs exactly when the
line-classification pass produced zero items, and on
`"Fix the bug in the parser. It was raining outside."` it keeps only
the first sentence, verbatim. -/
theorem c5_fallback_only_when_empty :
    (∀ text, extractedLines text ≠ [] →
      extract_action_items text = dedupeCI (extractedLines text))
    ∧ (∀ text, extractedLines text = [] →
      extract_action_items text = dedupeCI (fallbackSentences text))
    ∧ extract_action_items (cl "Fix the bug in the parser. It was raining outside.")
        = [cl "Fix the bug in the parser."] := by
  refine ⟨?_, ?_, by decide⟩
  · intro text h
    unfold extract_action_items collectedItems
    dsimp only
    rw [if_neg h]
  · intro text h
    unfold extract_action_items collectedItems
    dsimp only
    rw [if_pos h]

theorem c5_witness :
    extract_action_items (cl "- do it") = dedupeCI (extractedLines (cl "- do it"))
    ∧ extract_action_items (cl "Fix it. No.") = dedupeCI (fallbackSentences (cl "Fix it. No.")) :=
  ⟨c5_fallback_only_when_empty.1 (cl "- do it") (by decide),
   c5_fallback_only_when_empty.2.1 (cl "Fix it. No.") (by decide)⟩

/-- C7: a blank input short-circuits the model path: the result is the
empty sequence whatever the collaborator would have answered, so it is
produced without consulting (and does not depend on) the collaborator;
in particular for `""`, `"   "` and `"\n\n"`. -/
theorem c7_blank_input_short_circuit :
    (∀ text outcome, pyStrip text = [] → extract_action_items_llm text outcome = [])
    ∧ (∀ text o1 o2, pyStrip text = [] →
        extract_action_items_llm text o1 = extract_action_items_llm text o2)
    ∧ (∀ outcome, extract_action_items_llm (cl "") outcome = [])
    ∧ (∀ outcome, extract_action_items_llm (cl "   ") outcome = [])
    ∧ (∀ outcome, extract_action_items_llm (cl "\n\n") outcome = []) := by
  have base : ∀ text outcome, pyStrip text = [] → extract_action_items_llm text outcome = [] := by
    intro text outcome h
    unfold extract_action_items_llm
    rw [if_pos]
    have he : (pyStrip text).isEmpty = true := by
      rw [h]
      rfl
    rw [he, Bool.or_true]
  refine ⟨base, fun text o1 o2 h => by rw [base text o1 h, base text o2 h], ?_, ?_, ?_⟩
  · exact fun outcome => base _ outcome rfl
  · exact fun outcome => base _ outcome rfl
  · exact fun outcome => base _ outcome rfl

theorem c7_witness :
    extract_action_items_llm (cl "   ") (ChatOutcome.reply (cl "[\"x\"]")) = [] :=
  c7_blank_input_short_circuit.1 (cl "   ") (ChatOutcome.reply (cl "[\"x\"]")) rfl

/-- C6: on a parsed keyed mapping the model path looks up the keys
`action_items`, `actionItems`, `items`, `actions`, `tasks` in that
order, takes the first present truthy (non-empty) value, coerces its
truthy elements to strings dropping falsy ones, and yields `[]` when
none of the keys is present; on `{"action_items": ["a", "", "b"]}` it
returns `["a", "b"]`. -/
theorem c6_dict_key_priority :
    extract_action_items_llm (cl "some notes")
        (ChatOutcome.reply (cl "\x7b\"action_items\": [\"a\", \"\", \"b\"]\x7d"))
      = [cl "a", cl "b"]
    ∧ (∀ text content kvs, pyStrip text ≠ [] →
        jsonLoads (pyStrip content) = some (Json.obj kvs) →
        extract_action_items_llm text (ChatOutcome.reply content)
          = coerceItems (llmDictItems kvs))
    ∧ (∀ kvs,
        (∀ k ∈ [cl "action_items", cl "actionItems", cl "items", cl "actions", cl "tasks"],
          dictGet kvs k = none) →
        coerceItems (llmDictItems kvs) = [])
    ∧ (∀ kvs v, dictGet kvs (cl "action_items") = some v → pyTruthy v = true →
        llmDictItems kvs = v)
    ∧ (∀ kvs v, dictGet kvs (cl "action_items") = none →
        dictGet kvs (cl "actionItems") = some v → pyTruthy v = true →
        llmDictItems kvs = v)
    ∧ (∀ xs, coerceItems (Json.arr xs) = (xs.filter pyTruthy).map pyStr) := by
  refine ⟨by decide, ?_, ?_, ?_, ?_, fun xs => rfl⟩
  · intro text content kvs ht hj
    have h1 : text ≠ [] := by
      intro hc
      subst hc
      exact ht rfl
    unfold extract_action_items_llm
    rw [if_neg]
    · simp only [hj]
    · simp [List.isEmpty_iff, h1, ht]
  · intro kvs hk
    have ha := hk (cl "action_items") (by simp)
    have hb := hk (cl "actionItems") (by simp)
    have hc := hk (cl "items") (by simp)
    have hd := hk (cl "actions") (by simp)
    have he := hk (cl "tasks") (by simp)
    simp [llmDictItems, dictGetOrNone, ha, hb, hc, hd, he, pyOr, pyTruthy,
      coerceItems, pyIterToList]
  · intro kvs v h1 h2
    simp [llmDictItems, dictGetOrNone, h1, pyOr, h2]
  · intro kvs v h1 h2 h3
    simp [llmDictItems, dictGetOrNone, h1, h2, pyOr, h3,
      (show pyTruthy Json.null = false from rfl)]

theorem c6_witness :
    extract_action_items_llm (cl "x") (ChatOutcome.reply (cl "\x7b\"foo\": 7\x7d"))
      = coerceItems (llmDictItems [(cl "foo", Json.num 7)]) :=
  c6_dict_key_priority.2.1 (cl "x") (cl "\x7b\"foo\": 7\x7d") [(cl "foo", Json.num 7)]
    (by decide) rfl

/-- C8: a line qualifies as an action line only through the bullet,
keyword-prefix, or exact `"[ ]"`/`"[todo]"` substring rules (so
`"[x]"` never makes a line qualify), and the cleaning step strips only
the exact tokens `"[ ]"` and `"[todo]"` — a leading `"[x]"` survives,
while a qualifying `[x]` line keeps its `[x]` marker. -/
theorem c8_checkbox_asymmetry :
    (∀ line, bulletMatchLen (lowerL (pyStrip line)) = none →
      (∀ p ∈ KEYWORD_PREFIXES, p.isPrefixOf (lowerL (pyStrip line)) = false) →
      containsSub (cl "[ ]") (lowerL (pyStrip line)) = false →
      containsSub (cl "[todo]") (lowerL (pyStrip line)) = false →
      isActionLine line = false)
    ∧ (∀ t, removePrefixTok (cl "[ ]") ('[' :: 'x' :: t) = '[' :: 'x' :: t
        ∧ removePrefixTok (cl "[todo]") ('[' :: 'x' :: t) = '[' :: 'x' :: t)
    ∧ extract_action_items (cl "- [x] ship the fix") = [cl "[x] ship the fix"]
    ∧ extract_action_items (cl "ship the [x] item") = []
    ∧ extract_action_items (cl "- [ ] ship the fix") = [cl "ship the fix"]
    ∧ extract_action_items (cl "- [todo] ship the fix") = [cl "ship the fix"]
    ∧ extract_action_items (cl "- [TODO] ship the fix") = [cl "[TODO] ship the fix"] := by
  refine ⟨?_, ?_, by decide, by decide, by decide, by decide, by decide⟩
  · intro line h1 h2 h3 h4
    have h2a : KEYWORD_PREFIXES.any (fun p => p.isPrefixOf (lowerL (pyStrip line))) = false :=
      List.any_eq_false.mpr fun p hp => by rw [h2 p hp]; simp
    simp [isActionLine, h1, h2a, h3, h4]
  · intro t
    have hsq : (cl "[ ]").isPrefixOf ('[' :: 'x' :: t) = false := by
      have hx : (' ' == 'x') = false := by decide
      have hcl : cl "[ ]" = ['[', ' ', ']'] := rfl
      rw [hcl]
      simp [List.isPrefixOf, hx]
    have htd : (cl "[todo]").isPrefixOf ('[' :: 'x' :: t) = false := by
      have hx : ('t' == 'x') = false := by decide
      have hcl : cl "[todo]" = ['[', 't', 'o', 'd', 'o', ']'] := rfl
      rw [hcl]
      simp [List.isPrefixOf, hx]
    constructor
    · rw [removePrefixTok, if_neg]
      simp [hsq]
    · rw [removePrefixTok, if_neg]
      simp [htd]

/-- C9: `mark_action_item_done` answers `true` exactly when a row with
the requested id exists (and the update sets that row's stored `done`
integer), and the router handler turns a `false` answer into a
distinguishable 404 not-found result rather than masking it. -/
theorem c9_mark_done_iff_exists (db : DBState) (id : Nat) (done : Bool) :
    ((mark_action_item_done id done db).1 = true ↔ ∃ row ∈ db.actionItems, row.id = id)
    ∧ ((mark_done id done db).1 = MarkDoneResult.ok id done ↔
        ∃ row ∈ db.actionItems, row.id = id)
    ∧ ((mark_done id done db).1 = MarkDoneResult.notFound id ↔
        ¬∃ row ∈ db.actionItems, row.id = id)
    ∧ (∀ row ∈ (mark_action_item_done id done db).2.actionItems,
        row.id = id → row.done = if done then 1 else 0)
    ∧ (∀ row ∈ (mark_action_item_done id done db).2.actionItems,
        row.id ≠ id → row ∈ db.actionItems) := by
  have hmain : (mark_action_item_done id done db).1 = true ↔
      ∃ row ∈ db.actionItems, row.id = id := by
    unfold mark_action_item_done
    dsimp only
    rw [decide_eq_true_eq, gt_iff_lt, List.length_pos]
    constructor
    · intro hne
      rcases List.exists_mem_of_ne_nil _ hne with ⟨row, hrow⟩
      rcases List.mem_filter.mp hrow with ⟨hmem, hbeq⟩
      exact ⟨row, hmem, by simpa using hbeq⟩
    · rintro ⟨row, hmem, hid⟩
      intro hnil
      have := List.filter_eq_nil_iff.mp hnil row hmem
      simp [hid] at this
  refine ⟨hmain, ?_, ?_, ?_, ?_⟩
  · unfold mark_done
    dsimp only
    by_cases hb : (mark_action_item_done id done db).1 = true
    · rw [if_pos hb]
      exact ⟨fun _ => hmain.mp hb, fun _ => rfl⟩
    · rw [if_neg hb]
      exact ⟨fun hc => MarkDoneResult.noConfusion hc,
        fun hex => absurd (hmain.mpr hex) hb⟩
  · unfold mark_done
    dsimp only
    by_cases hb : (mark_action_item_done id done db).1 = true
    · rw [if_pos hb]
      exact ⟨fun hc => MarkDoneResult.noConfusion hc,
        fun hne => absurd (hmain.mp hb) hne⟩
    · rw [if_neg hb]
      exact ⟨fun _ hex => hb (hmain.mpr hex), fun _ => rfl⟩
  · intro row hrow hid
    unfold mark_action_item_done at hrow
    dsimp only at hrow
    rw [List.mem_map] at hrow
    obtain ⟨r, hr, heq⟩ := hrow
    subst heq
    by_cases hc : (r.id == id) = true
    · rw [if_pos hc]
    · exfalso
      rw [if_neg hc] at hid
      exact hc (beq_iff_eq.mpr hid)
  · intro row hrow hne
    unfold mark_action_item_done at hrow
    dsimp only at hrow
    rw [List.mem_map] at hrow
    obtain ⟨r, hr, heq⟩ := hrow
    subst heq
    by_cases hc : (r.id == id) = true
    · exfalso
      apply hne
      rw [if_pos hc]
      exact beq_iff_eq.mp hc
    · rw [if_neg hc]
      exact hr

/-! ### Behaviour of `insert_action_items` -/

theorem insert_action_items_spec (items : List (List Char)) (note_id : Option Nat) :
    ∀ db : DBState,
      (insert_action_items items note_id db).1
          = List.range' db.nextActionItemId items.length
      ∧ (insert_action_items items note_id db).2.actionItems
          = db.actionItems
            ++ ((List.range' db.nextActionItemId items.length).zip items).map
              (fun p => ⟨p.1, note_id, p.2, 0⟩)
      ∧ (insert_action_items items note_id db).2.nextActionItemId
          = db.nextActionItemId + items.length := by
  induction items with
  | nil =>
    intro db
    exact ⟨rfl, by simp [insert_action_items], rfl⟩
  | cons item rest ih =>
    intro db
    obtain ⟨ih1, ih2, ih3⟩ := ih
      { db with
        actionItems := db.actionItems ++ [⟨db.nextActionItemId, note_id, item, 0⟩]
        nextActionItemId := db.nextActionItemId + 1 }
    refine ⟨?_, ?_, ?_⟩
    · show db.nextActionItemId :: _ = _
      rw [List.length_cons, List.range'_succ, ih1]
    · show (insert_action_items rest note_id _).2.actionItems = _
      rw [ih2]
      dsimp only
      rw [List.length_cons, List.range'_succ, List.zip_cons_cons, List.map_cons]
      simp [List.append_assoc]
    · show (insert_action_items rest note_id _).2.nextActionItemId = _
      rw [ih3]
      dsimp only
      rw [List.length_cons]
      omega

theorem range'_get? : ∀ (n s i : Nat), i < n → (List.range' s n).get? i = some (s + i) := by
  intro n
  induction n with
  | zero => intro s i h; cases h
  | succ m ih =>
    intro s i h
    rw [List.range'_succ]
    cases i with
    | zero => rfl
    | succ j =>
      have := ih (s + 1) j (by omega)
      rw [List.get?_cons_succ, this]
      congr 1
      omega

theorem mem_insert_rows (note_id : Option Nat) :
    ∀ (items : List (List Char)) (s i : Nat) (h2 : i < items.length),
      (⟨s + i, note_id, items.get ⟨i, h2⟩, 0⟩ : ActionItemRow)
        ∈ ((List.range' s items.length).zip items).map
            (fun p => (⟨p.1, note_id, p.2, 0⟩ : ActionItemRow)) := by
  intro items
  induction items with
  | nil =>
    intro s i h2
    exact absurd h2 (Nat.not_lt_zero i)
  | cons a rest ih =>
    intro s i h2
    show (⟨s + i, note_id, (a :: rest).get ⟨i, h2⟩, 0⟩ : ActionItemRow)
        ∈ ((List.range' s (rest.length + 1)).zip (a :: rest)).map
            (fun p => (⟨p.1, note_id, p.2, 0⟩ : ActionItemRow))
    rw [List.range'_succ, List.zip_cons_cons, List.map_cons]
    cases i with
    | zero => exact List.mem_cons_self _ _
    | succ j =>
      apply List.mem_cons_of_mem
      have hj : j < rest.length := by
        rw [List.length_cons] at h2
        omega
      have hidx : s + (j + 1) = s + 1 + j := by omega
      have hget : (a :: rest).get ⟨j + 1, h2⟩ = rest.get ⟨j, hj⟩ := rfl
      rw [hget, hidx]
      exact ih (s + 1) j hj

theorem insert_ids_zip_snd (items : List (List Char)) (note_id : Option Nat) (db : DBState) :
    ((insert_action_items items note_id db).1.zip items).map Prod.snd = items := by
  obtain ⟨hids, -, -⟩ := insert_action_items_spec items note_id db
  rw [hids]
  exact List.map_snd_zip _ _ (by simp [List.length_range'])

theorem insert_ids_zip_length (items : List (List Char)) (note_id : Option Nat) (db : DBState) :
    ((insert_action_items items note_id db).1.zip items).length = items.length := by
  obtain ⟨hids, -, -⟩ := insert_action_items_spec items note_id db
  rw [List.length_zip, hids, List.length_range', min_self]

/-- C10: `insert_action_items` returns exactly one fresh id per input
item, in order — the i-th id is paired with the i-th input text in the
inserted rows — and therefore the extract endpoint's positional
`zip(ids, items)` pairing is lossless: the response lists exactly the
extracted texts. -/
theorem c10_insert_positional_ids :
    (∀ items note_id db, (insert_action_items items note_id db).1.length = items.length)
    ∧ (∀ items note_id db i, i < items.length →
        (insert_action_items items note_id db).1.get? i
          = some (db.nextActionItemId + i))
    ∧ (∀ items note_id db i (h2 : i < items.length),
        (⟨db.nextActionItemId + i, note_id, items.get ⟨i, h2⟩, 0⟩ : ActionItemRow)
          ∈ (insert_action_items items note_id db).2.actionItems)
    ∧ (∀ payload save db,
        ((extractEndpoint payload save db).1.items.map Prod.snd
          = extract_action_items (pyStrip payload))
        ∧ (extractEndpoint payload save db).1.items.length
            = (extract_action_items (pyStrip payload)).length) := by
  refine ⟨?_, ?_, ?_, ?_⟩
  · intro items note_id db
    obtain ⟨hids, -, -⟩ := insert_action_items_spec items note_id db
    rw [hids, List.length_range']
  · intro items note_id db i hi
    obtain ⟨hids, -, -⟩ := insert_action_items_spec items note_id db
    rw [hids]
    exact range'_get? _ _ _ hi
  · intro items note_id db i h2
    obtain ⟨-, hrows, -⟩ := insert_action_items_spec items note_id db
    rw [hrows]
    exact List.mem_append_right _ (mem_insert_rows note_id items db.nextActionItemId i h2)
  · intro payload save db
    exact ⟨insert_ids_zip_snd _ _ _, insert_ids_zip_length _ _ _⟩

theorem c10_witness :
    (insert_action_items [cl "a", cl "b"] none ⟨[], 1, [], 1⟩).1.get? 1 = some 2
    ∧ (⟨2, none, cl "b", 0⟩ : ActionItemRow)
        ∈ (insert_action_items [cl "a", cl "b"] none ⟨[], 1, [], 1⟩).2.actionItems :=
  ⟨c10_insert_positional_ids.2.1 [cl "a", cl "b"] none ⟨[], 1, [], 1⟩ 1 (by decide),
   c10_insert_positional_ids.2.2.1 [cl "a", cl "b"] none ⟨[], 1, [], 1⟩ 1 (by decide)⟩

theorem c8_witness :
    isActionLine (cl "ship the [x] item") = false
    ∧ removePrefixTok (cl "[ ]") ('[' :: 'x' :: cl " done") = '[' :: 'x' :: cl " done" :=
  ⟨c8_checkbox_asymmetry.1 (cl "ship the [x] item") (by decide) (by decide)
      (by decide) (by decide),
   (c8_checkbox_asymmetry.2.1 (cl " done")).1⟩

theorem c3_witness :
    (extract_action_items (cl "- Fix parser\n- fix PARSER\n- other")).Pairwise
      (fun a b => lowerL a ≠ lowerL b) :=
  (c3_dedup_case_insensitive (cl "- Fix parser\n- fix PARSER\n- other")).1

theorem c9_witness :
    (mark_done 5 true ⟨[], 1, [⟨1, none, cl "t", 0⟩], 2⟩).1 = MarkDoneResult.notFound 5 :=
  (c9_mark_done_iff_exists ⟨[], 1, [⟨1, none, cl "t", 0⟩], 2⟩ 5 true).2.2.1.mpr (by decide)
